import Mathlib

/-!
Verification of the task-manager core engine: a shallow embedding of the
repository layer (internal/repo/task.go), the service layer
(internal/service/task.go) and the worker pool (internal/worker), together
with theorems settling the specification claims.

The relational store is modelled as an explicit state (`DB`): a list of task
rows, a list of idempotency-key rows, the next serial id, and the clock value
returned by the SQL function now().  Each SQL statement of the source is one
atomic function on `DB`, mirroring the fact that a single statement executes
atomically in the store.
-/

namespace TaskManager

/-- Task status; the tasks table CHECK constraint admits exactly these three
values (migration: status IN (pending, processing, completed)). -/
inductive Status where
  | pending
  | processing
  | completed
deriving DecidableEq, Repr

/-- Go model.Task (internal/model/task.go): id, title, status, priority,
version, created_at, updated_at.  Timestamps and ids are modelled as Int. -/
structure Task where
  id : Int
  title : String
  status : Status
  priority : Int
  version : Int
  createdAt : Int
  updatedAt : Int
deriving DecidableEq, Repr

/-- Error values crossing the embedded layers: repo.ErrorNotFound,
repo.ErrorConflict, service.ErrValidation, pgx.ErrNoRows (no row returned by
a query), a CHECK-constraint violation surfaced by the store, and
context.Canceled. -/
inductive Err where
  | notFound
  | conflict
  | validation
  | checkViolation
  | noRows
  | ctxCanceled
deriving DecidableEq, Repr

instance {ε α : Type} [DecidableEq ε] [DecidableEq α] : DecidableEq (Except ε α) := fun a b =>
  match a, b with
  | .ok x, .ok y => decidable_of_iff (x = y) (by simp)
  | .error x, .error y => decidable_of_iff (x = y) (by simp)
  | .ok _, .error _ => isFalse (by simp)
  | .error _, .ok _ => isFalse (by simp)

/-- One idempotency_keys row: key (primary key) and resource_id. -/
structure KeyRow where
  key : String
  resourceId : Int
deriving DecidableEq, Repr

/-- The shared store state: tasks table, idempotency_keys table, the next
BIGSERIAL id, and the value the store's now() returns. -/
structure DB where
  tasks : List Task
  keys : List KeyRow
  nextId : Int
  now : Int
deriving DecidableEq, Repr

/-- Go unicode.IsSpace, as used by strings.TrimSpace: the Unicode
White_Space code points. -/
def goIsSpace (c : Char) : Bool :=
  let n := c.toNat
  (9 ≤ n && n ≤ 13) || n = 32 || n = 0x85 || n = 0xA0 || n = 0x1680 ||
  (0x2000 ≤ n && n ≤ 0x200A) || n = 0x2028 || n = 0x2029 || n = 0x202F ||
  n = 0x205F || n = 0x3000

/-- Go strings.TrimSpace: drop leading and trailing white space. -/
def trimSpace (s : String) : String :=
  String.mk (((s.data.dropWhile goIsSpace).reverse.dropWhile goIsSpace).reverse)

namespace Repo

/-- TaskRepo.Create (internal/repo/task.go): INSERT INTO tasks
(title, priority, status) VALUES ($1, $2, 'pending') RETURNING the row.
The store assigns the serial id, version 1 (column default) and both
timestamps now(); the column CHECK constraint on priority (1..10) is the
repository's last line of defense and rejects the insert otherwise. -/
def create (db : DB) (t : Task) : DB × Except Err Task :=
  if 1 ≤ t.priority ∧ t.priority ≤ 10 then
    let row : Task :=
      { id := db.nextId, title := t.title, status := .pending,
        priority := t.priority, version := 1,
        createdAt := db.now, updatedAt := db.now }
    ({ db with tasks := db.tasks ++ [row], nextId := db.nextId + 1 }, .ok row)
  else
    (db, .error .checkViolation)

/-- TaskRepo.Get: SELECT ... FROM tasks WHERE id = $1; pgx.ErrNoRows is
mapped to ErrorNotFound.  Read-only, so no DB is returned. -/
def get (db : DB) (id : Int) : Except Err Task :=
  match db.tasks.find? (fun r => r.id == id) with
  | some r => .ok r
  | none => .error .notFound

/-- The row produced by TaskRepo.Update's SET clause for a matched row r:
title and priority from the request, version incremented by one,
updated_at refreshed to now(). -/
def updRow (db : DB) (t : Task) (r : Task) : Task :=
  { r with title := t.title, priority := t.priority,
           version := r.version + 1, updatedAt := db.now }

/-- TaskRepo.Update: UPDATE tasks SET title, priority, version = version + 1,
updated_at = now() WHERE id = $1 AND version = $4 RETURNING the row; when no
row matches (version mismatch or row deleted) pgx.ErrNoRows is mapped to
ErrorConflict and nothing is written. -/
def update (db : DB) (t : Task) : DB × Except Err Task :=
  match db.tasks.find? (fun r => r.id == t.id && r.version == t.version) with
  | some r =>
      ({ db with tasks := db.tasks.map (fun w =>
            if w.id == t.id && w.version == t.version then updRow db t w else w) },
       .ok (updRow db t r))
  | none => (db, .error .conflict)

/-- TaskRepo.Delete: DELETE FROM tasks WHERE id = $1; zero rows affected is
reported as ErrorNotFound. -/
def delete (db : DB) (id : Int) : DB × Except Err Unit :=
  if db.tasks.any (fun r => r.id == id) then
    ({ db with tasks := db.tasks.filter (fun r => !(r.id == id)) }, .ok ())
  else
    (db, .error .notFound)

/-- TaskRepo.SaveIdempotencyKey: INSERT INTO idempotency_keys (key,
resource_id) VALUES ($1, $2) ON CONFLICT (key) DO NOTHING — an existing key
row is left untouched and no error is reported. -/
def saveIdempotencyKey (db : DB) (key : String) (resourceId : Int) : DB :=
  if db.keys.any (fun r => r.key == key) then db
  else { db with keys := db.keys ++ [{ key := key, resourceId := resourceId }] }

/-- TaskRepo.GetIdempotencyKey: SELECT resource_id FROM idempotency_keys
WHERE key = $1; pgx.ErrNoRows is mapped to ErrorNotFound. -/
def getIdempotencyKey (db : DB) (key : String) : Except Err Int :=
  match db.keys.find? (fun r => r.key == key) with
  | some r => .ok r.resourceId
  | none => .error .notFound

end Repo

namespace Service

/-- TaskService.validate (internal/service/task.go): rejects a title that is
empty after trimming whitespace and a priority outside [1,10].  Encoded as a
Bool (true = passes validation). -/
def validateB (t : Task) : Bool :=
  !(trimSpace t.title == "") && !(t.priority < 1 || t.priority > 10)

/-- TaskService.Create: validate; when an idempotency key is supplied and the
ledger already maps it, return repo.Get of the mapped id; otherwise create
the task and, when a key was supplied, save the mapping (its error is
discarded by the source). -/
def create (db : DB) (t : Task) (idempKey : String) : DB × Except Err Task :=
  if validateB t then
    match (if idempKey ≠ "" then (Repo.getIdempotencyKey db idempKey).toOption else none) with
    | some existingID => (db, Repo.get db existingID)
    | none =>
        match Repo.create db t with
        | (db1, .ok resource) =>
            (if idempKey ≠ "" then Repo.saveIdempotencyKey db1 idempKey resource.id
             else db1, .ok resource)
        | (db1, .error e) => (db1, .error e)
  else
    (db, .error .validation)

/-- TaskService.List: an out-of-range limit (≤ 0 or > 100) is replaced by the
default 20 before the repository is called. -/
def effLimit (limit : Int) : Int :=
  if limit ≤ 0 || limit > 100 then 20 else limit

/-- Row comparison of the repository's List ORDER BY created_at DESC, id
DESC: a precedes b when (a.createdAt, a.id) ≥ (b.createdAt, b.id)
lexicographically. -/
def newestFirst (a b : Task) : Prop :=
  toLex (b.createdAt, b.id) ≤ toLex (a.createdAt, a.id)

instance : DecidableRel newestFirst := fun a b =>
  inferInstanceAs (Decidable (toLex (b.createdAt, b.id) ≤ toLex (a.createdAt, a.id)))

instance : IsTotal Task newestFirst :=
  ⟨fun a b => le_total (toLex (b.createdAt, b.id)) (toLex (a.createdAt, a.id))⟩

instance : IsTrans Task newestFirst :=
  ⟨fun _ _ _ h1 h2 => le_trans h2 h1⟩

/-- TaskRepo.List (placed here after its ORDER BY relation): SELECT rows
whose status matches the optional filter, ORDER BY created_at DESC, id DESC,
LIMIT $2. -/
def repoList (db : DB) (statusF : Option Status) (limit : Int) : List Task :=
  ((db.tasks.filter (fun t =>
      match statusF with
      | none => true
      | some s => t.status == s)).insertionSort newestFirst).take limit.toNat

/-- TaskService.List = repository List at the effective limit. -/
def list (db : DB) (statusF : Option Status) (limit : Int) : List Task :=
  repoList db statusF (effLimit limit)

/-- TaskService.Update: validate, then repo.Update. -/
def update (db : DB) (t : Task) : DB × Except Err Task :=
  if validateB t then Repo.update db t else (db, .error .validation)

end Service

namespace Worker

/-- The ORDER BY key of the claim query (priority DESC, created_at ASC):
smaller key = claimed first. -/
def claimKey (t : Task) : Lex (Int × Int) :=
  toLex (-t.priority, t.createdAt)

/-- The SELECT of Pool.claimTask (internal/worker): the pending row minimal
in the claim order.  FOR UPDATE SKIP LOCKED concerns rows locked by a
concurrent in-flight statement; since every statement here is an atomic step
on the whole store, no row is ever lock-held between steps and the SELECT
simply picks the best pending row. -/
def selectPending (l : List Task) : Option Task :=
  (l.filter (fun t => t.status == .pending)).argmin claimKey

/-- The SET clause of the claim UPDATE applied to the rows matching the
claimed id: status = 'processing', updated_at = now(). -/
def claimUpd (now : Int) (rid : Int) (w : Task) : Task :=
  if w.id == rid then { w with status := .processing, updatedAt := now } else w

/-- Pool.claimTask: one atomic statement that selects the best pending row
(skipping locked rows), sets status = 'processing' and updated_at = now(),
and RETURNING the updated row; Scan yields pgx.ErrNoRows when no row
qualified. -/
def claimTask (db : DB) : DB × Except Err Task :=
  match selectPending db.tasks with
  | none => (db, .error .noRows)
  | some r =>
      ({ db with tasks := db.tasks.map (claimUpd db.now r.id) },
       .ok { r with status := .processing, updatedAt := db.now })

/-- Pool.completeTask: UPDATE tasks SET status = 'completed',
updated_at = now() WHERE id = $1 (unconditional on version). -/
def completeTask (db : DB) (id : Int) : DB :=
  { db with tasks := db.tasks.map (fun w =>
      if w.id == id then { w with status := .completed, updatedAt := db.now } else w) }

/-- The cancellation revert statement of Pool.processNext: UPDATE tasks SET
status = 'pending' WHERE id = $1 (only the status column; updated_at is not
touched). -/
def revertTask (db : DB) (id : Int) : DB :=
  { db with tasks := db.tasks.map (fun w =>
      if w.id == id then { w with status := .pending } else w) }

/-- pgxpool.Pool.Exec under a context: pgx checks the context before sending
a statement (pgconn refuses a statement whose context is already done, and
pool acquisition fails the same way), so an Exec issued with an
already-cancelled context performs no write and reports context.Canceled. -/
def pgExec (ctxDone : Bool) (db : DB) (f : DB → DB) : DB × Except Err Unit :=
  if ctxDone then (db, .error .ctxCanceled) else (f db, .ok ())

/-- Pool.processNext: claim; on success either the simulated work finishes
and completeTask runs, or ctx.Done fires during the work wait and the revert
UPDATE is issued — with that same, now cancelled, context.
cancelMidWork = true models the run in which the worker's context is
cancelled while the work timer is pending. -/
def processNext (db : DB) (cancelMidWork : Bool) : DB × Except Err Task :=
  match claimTask db with
  | (db1, .error e) => (db1, .error e)
  | (db1, .ok t) =>
      if cancelMidWork then
        let (db2, _r) := pgExec true db1 (fun d => revertTask d t.id)
        (db2, .error .ctxCanceled)
      else
        (completeTask db1 t.id, .ok t)

/-- One tick of Pool.worker: run processNext; an error is logged only when
it is non-nil and not pgx.ErrNoRows.  The Bool is "an error was logged". -/
def workerTick (db : DB) (cancelMidWork : Bool) : DB × Bool :=
  match processNext db cancelMidWork with
  | (db1, .error e) => (db1, decide (e ≠ .noRows))
  | (db1, .ok _) => (db1, false)

end Worker

/-- repo.Stats: counts grouped by status, average processing duration, total
task count (shape taken from the interface's consumers and tests:
ByStatus map[string]int, AvgProcessing float64, TotalTasks int). -/
structure Stats where
  byStatus : Status → Nat
  avgProcessing : ℚ
  totalTasks : Nat

namespace Repo

/-- Modelled from the spec: the body of TaskRepo.GetStats is absent from the
sources (only its declaration in repo.TaskRepository, its tests and its
callers appear), so the aggregation follows spec §4.5: a read-only
aggregation over current Task rows — grouped counts per status, a total
count, and the mean elapsed time between the processing and completed
timestamps for tasks that have completed (with only created_at/updated_at
stored, the elapsed time of a completed row is updated_at − created_at);
zero when no task has completed. -/
def getStats (db : DB) : DB × Stats :=
  let comp := db.tasks.filter (fun t => t.status == .completed)
  (db,
   { byStatus := fun s => db.tasks.countP (fun t => t.status == s),
     avgProcessing :=
       if comp.length = 0 then 0
       else (comp.map (fun t => ((t.updatedAt - t.createdAt : Int) : ℚ))).sum / comp.length,
     totalTasks := db.tasks.length })

end Repo

namespace Service

/-- TaskService.GetStats: delegates to the repository. -/
def getStats (db : DB) : DB × Stats := Repo.getStats db

end Service

/-! ### Small-step view of TaskService.Create

To reason about concurrent Create callers, the same Go control flow is cut
at its store round-trips: each step performs at most one atomic store
operation and records it as an event.  A schedule interleaves the steps of
two callers against the shared DB. -/

/-- A store round-trip issued by TaskService.Create. -/
inductive REvent where
  | getKey (k : String)
  | getTask (id : Int)
  | insertTask (id : Int)
  | saveKey (k : String) (id : Int)
deriving DecidableEq, Repr

/-- Program counter of one in-flight TaskService.Create call. -/
inductive CreatePC where
  | start
  | doGetExisting (existingID : Int)
  | doCreate
  | doSaveKey (resource : Task)
  | done (res : Except Err Task)
deriving Repr

namespace Service

/-- One atomic step of TaskService.Create for a caller with request t and
idempotency key k: validation is local; each subsequent step is exactly one
repository call of the source, in source order. -/
def createStep (t : Task) (k : String) (db : DB) (pc : CreatePC) :
    DB × CreatePC × List REvent :=
  match pc with
  | .start =>
      if validateB t then
        if k ≠ "" then
          match Repo.getIdempotencyKey db k with
          | .ok existingID => (db, .doGetExisting existingID, [.getKey k])
          | .error _ => (db, .doCreate, [.getKey k])
        else (db, .doCreate, [])
      else (db, .done (.error .validation), [])
  | .doGetExisting existingID =>
      (db, .done (Repo.get db existingID), [.getTask existingID])
  | .doCreate =>
      match Repo.create db t with
      | (db1, .ok resource) =>
          if k ≠ "" then (db1, .doSaveKey resource, [.insertTask resource.id])
          else (db1, .done (.ok resource), [.insertTask resource.id])
      | (db1, .error e) => (db1, .done (.error e), [])
  | .doSaveKey resource =>
      (Repo.saveIdempotencyKey db k resource.id, .done (.ok resource),
       [.saveKey k resource.id])
  | .done r => (db, .done r, [])

/-- Run one Create caller to completion (4 steps always reach done) and
collect its event trace. -/
def runCreate (t : Task) (k : String) (db : DB) : DB × CreatePC × List REvent :=
  let s1 := createStep t k db .start
  let s2 := createStep t k s1.1 s1.2.1
  let s3 := createStep t k s2.1 s2.2.1
  let s4 := createStep t k s3.1 s3.2.1
  (s4.1, s4.2.1, s1.2.2 ++ s2.2.2 ++ s3.2.2 ++ s4.2.2)

/-- The store round-trip trace of one sequential TaskService.Create call. -/
def createTrace (db : DB) (t : Task) (k : String) : List REvent :=
  (runCreate t k db).2.2

/-- Two concurrent Create callers (A and B) driven by a schedule: true runs
one step of A, false one step of B, against the shared DB. -/
def runSched (tA : Task) (kA : String) (tB : Task) (kB : String)
    (sched : List Bool) (db : DB) (pcA pcB : CreatePC) :
    DB × CreatePC × CreatePC :=
  match sched with
  | [] => (db, pcA, pcB)
  | b :: rest =>
      if b then
        let s := createStep tA kA db pcA
        runSched tA kA tB kB rest s.1 s.2.1 pcB
      else
        let s := createStep tB kB db pcB
        runSched tA kA tB kB rest s.1 pcA s.2.1

/-- Whether some event satisfying p occurs strictly before some event
satisfying q in a trace. -/
def precedes (p q : REvent → Bool) : List REvent → Bool
  | [] => false
  | e :: rest => (p e && rest.any q) || precedes p q rest

end Service

/-- Is the event an insertion into idempotency_keys? -/
def REvent.isSaveKey : REvent → Bool
  | .saveKey _ _ => true
  | _ => false

/-- Is the event an insertion into tasks? -/
def REvent.isInsertTask : REvent → Bool
  | .insertTask _ => true
  | _ => false

/-- The final result of a finished Create caller, if it has finished. -/
def CreatePC.result : CreatePC → Option (Except Err Task)
  | .done r => some r
  | _ => none

/-- Ids of the currently pending rows, in row order. -/
def pendingIds (db : DB) : List Int :=
  (db.tasks.filter (fun t => t.status == .pending)).map Task.id

/-- Up to n successive Claim calls (each one atomic statement), collecting
the ids handed out; stops at the first NoneAvailable. -/
def claimIds : Nat → DB → List Int
  | 0, _ => []
  | n + 1, db =>
      match Worker.claimTask db with
      | (_, .error _) => []
      | (db2, .ok u) => u.id :: claimIds n db2

/-- The fields of a task row that the worker-pool transitions must not
touch: id, title, priority, version, created_at. -/
def frameOf (t : Task) : Int × String × Int × Int × Int :=
  (t.id, t.title, t.priority, t.version, t.createdAt)

/-! ### Concrete fixtures used by witnesses and counterexamples -/

/-- A valid create request (only title and priority reach the INSERT). -/
def sampleReq : Task :=
  { id := 0, title := "report", status := .pending, priority := 5,
    version := 0, createdAt := 0, updatedAt := 0 }

/-- An empty store. -/
def emptyDB : DB := { tasks := [], keys := [], nextId := 1, now := 100 }

/-- A pending seeded row with id i and priority p (created at time i). -/
def seedTask (i p : Int) : Task :=
  { id := i, title := "seed", status := .pending, priority := p,
    version := 1, createdAt := i, updatedAt := i }

/-- Five pending tasks with priorities [1,5,10,3,7] (spec §8 scenario). -/
def seededDB : DB :=
  { tasks := [seedTask 1 1, seedTask 2 5, seedTask 3 10, seedTask 4 3, seedTask 5 7],
    keys := [], nextId := 6, now := 100 }

/-- A store holding exactly one pending task. -/
def oneTaskDB : DB := { tasks := [seedTask 1 5], keys := [], nextId := 2, now := 100 }

/-- A store with one pending, one completed (4 time units of processing)
and one processing task. -/
def mixedDB : DB :=
  { tasks := [seedTask 1 5,
              { seedTask 2 5 with status := .completed, createdAt := 0, updatedAt := 4 },
              { seedTask 3 2 with status := .processing }],
    keys := [], nextId := 4, now := 100 }

/-- An update request carrying the currently stored version of task 1. -/
def updReq : Task :=
  { id := 1, title := "updated", status := .pending, priority := 7,
    version := 1, createdAt := 0, updatedAt := 0 }

/-- An update request carrying a stale version for task 1. -/
def staleReq : Task := { updReq with version := 99 }

/-- Two concurrent Create callers sharing key "k1" on an empty store, with
the schedule: A looks the key up (miss), B looks the key up (miss), A
inserts its task and saves the key, then B inserts its task and attempts to
save the key (swallowed conflict). -/
def raceRun : DB × CreatePC × CreatePC :=
  Service.runSched sampleReq "k1" sampleReq "k1"
    [true, false, true, true, false, false] emptyDB .start .start

/-- The row the store materialises for a Create INSERT executed on db. -/
def freshRow (db : DB) (t : Task) : Task :=
  { id := db.nextId, title := t.title, status := .pending,
    priority := t.priority, version := 1,
    createdAt := db.now, updatedAt := db.now }

/-! ## Helper lemmas -/

theorem validateB_bounds (t : Task) (hv : Service.validateB t = true) :
    trimSpace t.title ≠ "" ∧ 1 ≤ t.priority ∧ t.priority ≤ 10 := by
  simp only [Service.validateB, Bool.and_eq_true, Bool.not_eq_true',
    beq_eq_false_iff_ne, ne_eq, Bool.or_eq_false_iff,
    decide_eq_false_iff_not, not_lt] at hv
  exact ⟨hv.1, hv.2.1, hv.2.2⟩

theorem map_frame_congr (f : Task → Task) (hf : ∀ w, frameOf (f w) = frameOf w)
    (l : List Task) : (l.map f).map frameOf = l.map frameOf := by
  rw [List.map_map]
  exact List.map_congr_left (fun a _ => hf a)

/-- Behaviour of TaskService.Create when the key is non-empty, the request
valid and the ledger misses: the task row is inserted and the key mapping
appended. -/
theorem create_fresh_eq (db : DB) (t : Task) (k : String) (hk : k ≠ "")
    (hv : Service.validateB t = true)
    (heq : Repo.getIdempotencyKey db k = .error .notFound) :
    Service.create db t k =
      ({ db with tasks := db.tasks ++ [freshRow db t], nextId := db.nextId + 1,
                 keys := db.keys ++ [{ key := k, resourceId := db.nextId }] },
       .ok (freshRow db t)) := by
  obtain ⟨-, hp1, hp2⟩ := validateB_bounds t hv
  have hfind : db.keys.find? (fun r => r.key == k) = none := by
    unfold Repo.getIdempotencyKey at heq
    cases h : db.keys.find? (fun r => r.key == k) with
    | none => rfl
    | some r => rw [h] at heq; cases heq
  have hany : db.keys.any (fun r => r.key == k) = false := by
    rw [List.any_eq_false]
    exact fun x hx => List.find?_eq_none.mp hfind x hx
  simp [Service.create, hv, hk, heq, Repo.create, hp1, hp2,
    Repo.saveIdempotencyKey, hany, Except.toOption, freshRow]

/-- Behaviour of TaskService.Create when the key is non-empty, the request
valid and the ledger already maps the key to i: the store is untouched and
the result is repo.Get of i. -/
theorem create_hit_eq (db : DB) (t : Task) (k : String) (hk : k ≠ "")
    (hv : Service.validateB t = true) (i : Int)
    (heq : Repo.getIdempotencyKey db k = .ok i) :
    Service.create db t k = (db, Repo.get db i) := by
  simp [Service.create, hv, hk, heq, Except.toOption]

/-- repo.Get returns a row of the store carrying the requested id. -/
theorem get_ok_spec (db : DB) (i : Int) (r : Task)
    (h : Repo.get db i = .ok r) : r.id = i ∧ r ∈ db.tasks := by
  unfold Repo.get at h
  cases hf : db.tasks.find? (fun w => w.id == i) with
  | none => rw [hf] at h; cases h
  | some w =>
      rw [hf] at h
      cases h
      exact ⟨by simpa using List.find?_some hf, List.mem_of_find?_eq_some hf⟩

/-! ## C4 — cancellation revert -/

/-- C4 (code bug): with one pending task, when the worker's context is
cancelled during the in-flight work, processNext leaves the claimed task in
`processing` — the revert UPDATE is issued with the already-cancelled
context, so the store never executes it.  Had the revert statement actually
run (third conjunct), the task would indeed be `pending` again. -/
theorem cancelled_work_leaves_task_in_processing :
    (Worker.processNext oneTaskDB true).1.tasks.map Task.status = [.processing] ∧
    (Worker.processNext oneTaskDB true).2 = .error .ctxCanceled ∧
    (Worker.revertTask (Worker.claimTask oneTaskDB).1 1).tasks.map Task.status
      = [.pending] := by decide

/-! ## C2 — idempotency-key reservation order -/

/-- C2 (counterexample): on an empty store, a Create call with key "k1"
emits its task INSERT strictly before its key INSERT — no saveKey event ever
precedes the insertTask event — refuting that the key mapping is reserved in
the ledger before the Task row is created. -/
theorem create_reservation_order_cex :
    Service.precedes REvent.isSaveKey REvent.isInsertTask
      (Service.createTrace emptyDB sampleReq "k1") = false ∧
    Service.precedes REvent.isInsertTask REvent.isSaveKey
      (Service.createTrace emptyDB sampleReq "k1") = true ∧
    Service.createTrace emptyDB sampleReq "k1"
      = [.getKey "k1", .insertTask 1, .saveKey "k1" 1] := by decide

/-- C2 (amended): for every Create call with a non-empty key and a valid
request: when the ledger does not yet map the key, the call's store
round-trips are exactly lookup, task INSERT, then key INSERT — the key is
saved only after the Task row exists, and the call returns the fresh row and
appends the key mapping afterwards; when the ledger already maps the key to
i, the call performs no insert at all and returns repo.Get of i over the
unchanged store. -/
theorem create_task_insert_precedes_key_save (db : DB) (t : Task) (k : String)
    (hk : k ≠ "") (hv : Service.validateB t = true) :
    (Repo.getIdempotencyKey db k = .error .notFound →
        Service.createTrace db t k =
          [.getKey k, .insertTask db.nextId, .saveKey k db.nextId] ∧
        ∃ row, row.id = db.nextId ∧
          Service.create db t k =
            ({ db with tasks := db.tasks ++ [row], nextId := db.nextId + 1,
                       keys := db.keys ++ [{ key := k, resourceId := row.id }] },
             .ok row)) ∧
    (∀ i, Repo.getIdempotencyKey db k = .ok i →
        Service.createTrace db t k = [.getKey k, .getTask i] ∧
        Service.create db t k = (db, Repo.get db i)) := by
  obtain ⟨-, hp1, hp2⟩ := validateB_bounds t hv
  constructor
  · intro heq
    constructor
    · simp [Service.createTrace, Service.runCreate, Service.createStep, hv, hk,
        heq, Repo.create, hp1, hp2]
    · exact ⟨freshRow db t, rfl, create_fresh_eq db t k hk hv heq⟩
  · intro i heq
    constructor
    · simp [Service.createTrace, Service.runCreate, Service.createStep, hv, hk, heq]
    · exact create_hit_eq db t k hk hv i heq

/-- Witness for the C2 amended theorem at a concrete input: key "k1" on an
empty store with a valid request. -/
theorem create_task_insert_precedes_key_save_witness :
    Service.validateB sampleReq = true ∧
    Service.createTrace emptyDB sampleReq "k1" =
      [.getKey "k1", .insertTask 1, .saveKey "k1" 1] :=
  ⟨by decide,
   ((create_task_insert_precedes_key_save emptyDB sampleReq "k1"
      (by decide) (by decide)).1 (by decide)).1⟩

/-! ## C6 — at most one task per idempotency key -/

/-- C6 (counterexample): two concurrent Create callers with the same key
"k1" on an empty store, interleaved lookup-lookup-create-create, each create
a Task row (ids 1 and 2) and return different identifiers, while the ledger
maps the key to 1 — refuting that exactly one Task is ever created per
distinct key regardless of concurrency. -/
theorem concurrent_create_two_tasks_cex :
    raceRun.1.tasks.map Task.id = [1, 2] ∧
    raceRun.2.1.result = some (.ok
      { id := 1, title := "report", status := .pending, priority := 5,
        version := 1, createdAt := 100, updatedAt := 100 }) ∧
    raceRun.2.2.result = some (.ok
      { id := 2, title := "report", status := .pending, priority := 5,
        version := 1, createdAt := 100, updatedAt := 100 }) ∧
    raceRun.1.keys = [{ key := "k1", resourceId := 1 }] := by decide

/-- C6 (amended): sequentially — when each Create completes before the next
begins — the key is authoritative: a Create against a store whose ledger does
not map the key (and whose pending serial id is fresh, as the store
guarantees) creates exactly one task and leaves the ledger mapping the key
to it; every later sequential Create with that key touches nothing and
returns the task the ledger maps, i.e. the same identifier.  (Under
concurrent interleaving this fails; see the counterexample.) -/
theorem create_idempotent_when_sequential (db : DB) (t : Task) (k : String)
    (hk : k ≠ "") (hv : Service.validateB t = true) :
    (Repo.getIdempotencyKey db k = .error .notFound →
      (∀ r ∈ db.tasks, r.id ≠ db.nextId) →
        (Service.create db t k).2 = .ok (freshRow db t) ∧
        (Service.create db t k).1.tasks.length = db.tasks.length + 1 ∧
        Repo.getIdempotencyKey (Service.create db t k).1 k = .ok (freshRow db t).id ∧
        Repo.get (Service.create db t k).1 (freshRow db t).id = .ok (freshRow db t)) ∧
    (∀ i r, Repo.getIdempotencyKey db k = .ok i → Repo.get db i = .ok r →
        Service.create db t k = (db, .ok r) ∧ r.id = i) := by
  constructor
  · intro heq hfresh
    have hfind : db.keys.find? (fun r => r.key == k) = none := by
      unfold Repo.getIdempotencyKey at heq
      cases h : db.keys.find? (fun r => r.key == k) with
      | none => rfl
      | some r => rw [h] at heq; cases heq
    rw [create_fresh_eq db t k hk hv heq]
    refine ⟨rfl, by simp, ?_, ?_⟩
    · unfold Repo.getIdempotencyKey
      rw [List.find?_append, hfind]
      simp [freshRow]
    · unfold Repo.get
      have hnone : db.tasks.find? (fun w => w.id == (freshRow db t).id) = none := by
        rw [List.find?_eq_none]
        intro x hx
        simpa [freshRow] using hfresh x hx
      rw [List.find?_append, hnone]
      simp [freshRow]
  · intro i r heq hget
    exact ⟨by rw [create_hit_eq db t k hk hv i heq, hget],
           (get_ok_spec db i r hget).1⟩

/-- Witness for the C6 amended theorem: a fresh key on the empty store, and
a mapped key on the store that call produces. -/
theorem create_idempotent_when_sequential_witness :
    (Repo.getIdempotencyKey emptyDB "k1" = .error .notFound ∧
      (Service.create emptyDB sampleReq "k1").2 = .ok (freshRow emptyDB sampleReq) ∧
      Repo.getIdempotencyKey (Service.create emptyDB sampleReq "k1").1 "k1"
        = .ok (freshRow emptyDB sampleReq).id) ∧
    (Service.create (Service.create emptyDB sampleReq "k1").1 sampleReq "k1"
        = ((Service.create emptyDB sampleReq "k1").1,
           .ok (freshRow emptyDB sampleReq))) := by
  have h1 := (create_idempotent_when_sequential emptyDB sampleReq "k1"
    (by decide) (by decide)).1 (by decide) (by decide)
  have h2 := ((create_idempotent_when_sequential
      (Service.create emptyDB sampleReq "k1").1 sampleReq "k1"
      (by decide) (by decide)).2 (freshRow emptyDB sampleReq).id
      (freshRow emptyDB sampleReq) (by decide) (by decide)).1
  exact ⟨⟨by decide, h1.1, h1.2.2.1⟩, h2⟩

/-! ## C7 — validation boundaries -/

/-- C7: Create and Update reject with ValidationError exactly the inputs
whose title is empty after trimming whitespace or whose priority lies
outside [1,10]; a rejected input leaves the store untouched; priorities 0
and 11 are rejected, 1 and 10 accepted. -/
theorem validation_boundary :
    (∀ t, Service.validateB t = true ↔
        (trimSpace t.title ≠ "" ∧ 1 ≤ t.priority ∧ t.priority ≤ 10)) ∧
    (∀ db t k, Service.validateB t = false →
        Service.create db t k = (db, .error .validation)) ∧
    (∀ db t, Service.validateB t = false →
        Service.update db t = (db, .error .validation)) ∧
    (∀ db t k, Service.validateB t = true →
        (Service.create db t k).2 ≠ .error .validation) ∧
    (∀ db t, Service.validateB t = true →
        (Service.update db t).2 ≠ .error .validation) ∧
    Service.validateB { sampleReq with priority := 0 } = false ∧
    Service.validateB { sampleReq with priority := 11 } = false ∧
    Service.validateB { sampleReq with priority := 1 } = true ∧
    Service.validateB { sampleReq with priority := 10 } = true := by
  refine ⟨?_, ?_, ?_, ?_, ?_, by decide, by decide, by decide, by decide⟩
  · intro t
    simp only [Service.validateB, Bool.and_eq_true, Bool.not_eq_true',
      beq_eq_false_iff_ne, ne_eq, Bool.or_eq_false_iff,
      decide_eq_false_iff_not, not_lt]
  · intro db t k h
    simp [Service.create, h]
  · intro db t h
    simp [Service.update, h]
  · intro db t k hv
    obtain ⟨-, hp1, hp2⟩ := validateB_bounds t hv
    cases hkey : (if k ≠ "" then (Repo.getIdempotencyKey db k).toOption else none) with
    | some i =>
        simp only [Service.create, hv, if_true, hkey]
        unfold Repo.get
        cases db.tasks.find? (fun r => r.id == i) <;> simp
    | none =>
        simp [Service.create, hv, hkey, Repo.create, hp1, hp2]
  · intro db t hv
    simp only [Service.update, hv, if_true, Repo.update]
    cases db.tasks.find? (fun r => r.id == t.id && r.version == t.version) <;> simp

/-- Witness for C7 at concrete inputs: priority 0 is rejected and performs
no write; priority 10 is accepted. -/
theorem validation_boundary_witness :
    Service.validateB { sampleReq with priority := 0 } = false ∧
    Service.create emptyDB { sampleReq with priority := 0 } ""
      = (emptyDB, .error .validation) ∧
    Service.validateB { sampleReq with priority := 10 } = true :=
  ⟨by decide,
   validation_boundary.2.1 emptyDB { sampleReq with priority := 0 } "" (by decide),
   by decide⟩

/-! ## C10 — worker transitions touch only status and updated_at -/

/-- C10: claimTask, completeTask, the cancellation revert, and hence a whole
processNext run leave id, title, priority, version and created_at of every
row unchanged; in particular no worker transition bumps the
optimistic-concurrency version. -/
theorem worker_transitions_frame (db : DB) (id : Int) (c : Bool) :
    (Worker.claimTask db).1.tasks.map frameOf = db.tasks.map frameOf ∧
    (Worker.completeTask db id).tasks.map frameOf = db.tasks.map frameOf ∧
    (Worker.revertTask db id).tasks.map frameOf = db.tasks.map frameOf ∧
    (Worker.processNext db c).1.tasks.map frameOf = db.tasks.map frameOf := by
  have hclaim : ∀ d : DB,
      (Worker.claimTask d).1.tasks.map frameOf = d.tasks.map frameOf := by
    intro d
    unfold Worker.claimTask
    cases h : Worker.selectPending d.tasks with
    | none => rfl
    | some r =>
        exact map_frame_congr _
          (fun w => by unfold Worker.claimUpd frameOf; split <;> rfl) _
  have hcomp : ∀ (d : DB) (i : Int),
      (Worker.completeTask d i).tasks.map frameOf = d.tasks.map frameOf := by
    intro d i
    unfold Worker.completeTask
    exact map_frame_congr _ (fun w => by unfold frameOf; split <;> rfl) _
  have hrev : ∀ (d : DB) (i : Int),
      (Worker.revertTask d i).tasks.map frameOf = d.tasks.map frameOf := by
    intro d i
    unfold Worker.revertTask
    exact map_frame_congr _ (fun w => by unfold frameOf; split <;> rfl) _
  refine ⟨hclaim db, hcomp db id, hrev db id, ?_⟩
  unfold Worker.processNext
  cases hc : Worker.claimTask db with
  | mk db1 res =>
      have hdb1 : db1.tasks.map frameOf = db.tasks.map frameOf := by
        have h := hclaim db
        rw [hc] at h
        exact h
      cases res with
      | error e => simpa using hdb1
      | ok u =>
          cases c with
          | true => simpa [Worker.pgExec] using hdb1
          | false => simp only []; rw [if_neg (by simp)]; rw [hcomp db1 u.id]; exact hdb1

/-! ## C9 — stats is a pure read-only aggregation -/

theorem count_status_partition (l : List Task) :
    l.countP (fun u => u.status == .pending)
      + l.countP (fun u => u.status == .processing)
      + l.countP (fun u => u.status == .completed) = l.length := by
  induction l with
  | nil => rfl
  | cons a l ih =>
      simp only [List.countP_cons, List.length_cons]
      cases ha : a.status <;> simp [ha] <;> omega

/-- C9: GetStats performs no write (the store it returns is the one it was
given), its grouped counts are the per-status row counts of the current
tasks and sum to the total count, it is a pure function of the task rows,
and avg_processing is the mean of updated_at − created_at over the completed
rows (zero when none is completed). -/
theorem stats_readonly_aggregation (db : DB) :
    (Service.getStats db).1 = db ∧
    (∀ s, (Service.getStats db).2.byStatus s
        = (db.tasks.filter (fun u => u.status == s)).length) ∧
    (Service.getStats db).2.totalTasks = db.tasks.length ∧
    ((Service.getStats db).2.byStatus .pending
      + (Service.getStats db).2.byStatus .processing
      + (Service.getStats db).2.byStatus .completed = db.tasks.length) ∧
    (∀ db2 : DB, db2.tasks = db.tasks →
        (Service.getStats db2).2.byStatus = (Service.getStats db).2.byStatus ∧
        (Service.getStats db2).2.avgProcessing = (Service.getStats db).2.avgProcessing ∧
        (Service.getStats db2).2.totalTasks = (Service.getStats db).2.totalTasks) ∧
    ((db.tasks.filter (fun u => u.status == .completed)).length ≠ 0 →
      (Service.getStats db).2.avgProcessing
          * (db.tasks.filter (fun u => u.status == .completed)).length
        = ((db.tasks.filter (fun u => u.status == .completed)).map
             (fun u => ((u.updatedAt - u.createdAt : Int) : ℚ))).sum) ∧
    ((db.tasks.filter (fun u => u.status == .completed)).length = 0 →
      (Service.getStats db).2.avgProcessing = 0) := by
  refine ⟨rfl, ?_, rfl, ?_, ?_, ?_, ?_⟩
  · intro s
    simp [Service.getStats, Repo.getStats, List.countP_eq_length_filter]
  · simpa [Service.getStats, Repo.getStats] using count_status_partition db.tasks
  · intro db2 h
    simp [Service.getStats, Repo.getStats, h]
  · intro h
    simp only [Service.getStats, Repo.getStats, if_neg h]
    rw [div_mul_cancel₀]
    exact_mod_cast h
  · intro h
    simp [Service.getStats, Repo.getStats, h]

/-- Witness for C9 at a concrete store with one completed task. -/
theorem stats_readonly_aggregation_witness :
    (Service.getStats mixedDB).1 = mixedDB ∧
    (Service.getStats mixedDB).2.byStatus .completed
      = (mixedDB.tasks.filter (fun u => u.status == .completed)).length ∧
    (Service.getStats mixedDB).2.avgProcessing
        * (mixedDB.tasks.filter (fun u => u.status == .completed)).length
      = ((mixedDB.tasks.filter (fun u => u.status == .completed)).map
           (fun u => ((u.updatedAt - u.createdAt : Int) : ℚ))).sum :=
  ⟨(stats_readonly_aggregation mixedDB).1,
   (stats_readonly_aggregation mixedDB).2.1 .completed,
   (stats_readonly_aggregation mixedDB).2.2.2.2.2.1 (by decide)⟩

/-! ## C1 — optimistic-concurrency update -/

/-- C1: an Update succeeds iff a stored row carries the supplied id with
exactly the supplied version; on success the returned and stored row has
version incremented by exactly one and updated_at refreshed, the matched row
is replaced and every other row kept; on mismatch — including a task that
was deleted — the result is Conflict and the store is unchanged, never
partially applied. -/
theorem update_version_check (db : DB) (t : Task)
    (hids : (db.tasks.map Task.id).Nodup) :
    ((∃ u, (Repo.update db t).2 = .ok u) ↔
        ∃ r ∈ db.tasks, r.id = t.id ∧ r.version = t.version) ∧
    (∀ r ∈ db.tasks, r.id = t.id → r.version = t.version →
        (Repo.update db t).2 = .ok (Repo.updRow db t r) ∧
        (Repo.updRow db t r).version = r.version + 1 ∧
        (Repo.updRow db t r).updatedAt = db.now ∧
        (Repo.update db t).1.tasks
          = db.tasks.map (fun w => if w = r then Repo.updRow db t r else w)) ∧
    ((∀ r ∈ db.tasks, ¬(r.id = t.id ∧ r.version = t.version)) →
        Repo.update db t = (db, .error .conflict)) := by
  refine ⟨⟨?_, ?_⟩, ?_, ?_⟩
  · rintro ⟨u, hu⟩
    unfold Repo.update at hu
    cases hf : db.tasks.find? (fun w => w.id == t.id && w.version == t.version) with
    | none => rw [hf] at hu; cases hu
    | some w =>
        have hp := List.find?_some hf
        simp only [Bool.and_eq_true, beq_iff_eq] at hp
        exact ⟨w, List.mem_of_find?_eq_some hf, hp.1, hp.2⟩
  · rintro ⟨r, hr, h1, h2⟩
    unfold Repo.update
    cases hf : db.tasks.find? (fun w => w.id == t.id && w.version == t.version) with
    | some w => exact ⟨_, rfl⟩
    | none =>
        exfalso
        have hn := List.find?_eq_none.mp hf r hr
        simp [h1, h2] at hn
  · intro r hr h1 h2
    have hsome : db.tasks.find? (fun w => w.id == t.id && w.version == t.version)
        = some r := by
      cases hf : db.tasks.find? (fun w => w.id == t.id && w.version == t.version) with
      | none =>
          exfalso
          have hn := List.find?_eq_none.mp hf r hr
          simp [h1, h2] at hn
      | some w =>
          have hp := List.find?_some hf
          simp only [Bool.and_eq_true, beq_iff_eq] at hp
          have hw : w = r :=
            List.inj_on_of_nodup_map hids (List.mem_of_find?_eq_some hf) hr
              (by rw [hp.1, h1])
          rw [hw]
    refine ⟨by unfold Repo.update; rw [hsome], rfl, rfl, ?_⟩
    unfold Repo.update
    rw [hsome]
    apply List.map_congr_left
    intro w hw
    by_cases hwr : w = r
    · subst hwr
      rw [if_pos (by simp [h1, h2]), if_pos rfl]
    · rw [if_neg ?_, if_neg hwr]
      simp only [Bool.and_eq_true, beq_iff_eq, not_and]
      intro hid
      exfalso
      exact hwr (List.inj_on_of_nodup_map hids hw hr (by rw [hid, h1]))
  · intro hno
    unfold Repo.update
    cases hf : db.tasks.find? (fun w => w.id == t.id && w.version == t.version) with
    | some w =>
        exfalso
        have hp := List.find?_some hf
        simp only [Bool.and_eq_true, beq_iff_eq] at hp
        exact hno w (List.mem_of_find?_eq_some hf) hp
    | none => rfl

/-- Witness for C1: on a one-row store, the matching version succeeds with
version 2, the stale version yields Conflict with the store unchanged. -/
theorem update_version_check_witness :
    (oneTaskDB.tasks.map Task.id).Nodup ∧
    (Repo.update oneTaskDB updReq).2 = .ok (Repo.updRow oneTaskDB updReq (seedTask 1 5)) ∧
    Repo.update oneTaskDB staleReq = (oneTaskDB, .error .conflict) :=
  ⟨by decide,
   ((update_version_check oneTaskDB updReq (by decide)).2.1 (seedTask 1 5)
      (by decide) (by decide) (by decide)).1,
   (update_version_check oneTaskDB staleReq (by decide)).2.2 (by decide)⟩

/-! ## C3 — the claim protocol -/

theorem selectPending_none (l : List Task) :
    Worker.selectPending l = none ↔ ∀ u ∈ l, u.status ≠ .pending := by
  unfold Worker.selectPending
  rw [List.argmin_eq_none, List.filter_eq_nil_iff]
  simp

theorem selectPending_spec (l : List Task) (r : Task)
    (h : Worker.selectPending l = some r) :
    r ∈ l ∧ r.status = .pending ∧
      ∀ w ∈ l, w.status = .pending → Worker.claimKey r ≤ Worker.claimKey w := by
  unfold Worker.selectPending at h
  have hmem := List.argmin_mem h
  rw [List.mem_filter] at hmem
  refine ⟨hmem.1, by simpa using hmem.2, ?_⟩
  intro w hw hwp
  exact List.le_of_mem_argmin (List.mem_filter.mpr ⟨hw, by simp [hwp]⟩) h

theorem claimKey_le_spec (r w : Task) (h : Worker.claimKey r ≤ Worker.claimKey w) :
    w.priority ≤ r.priority ∧ (w.priority = r.priority → r.createdAt ≤ w.createdAt) := by
  unfold Worker.claimKey at h
  rw [Prod.Lex.le_iff] at h
  constructor
  · rcases h with h | ⟨h1, -⟩ <;> omega
  · intro hp
    rcases h with h | ⟨-, h2⟩
    · omega
    · exact h2

/-- C3: claimTask yields NoneAvailable (pgx.ErrNoRows) exactly when no
pending row exists, with the store untouched; otherwise it hands out a
pending row of maximal priority — ties broken by earliest creation time —
returned with status processing and updated_at refreshed, the store updated
by exactly that claim; the worker loop does not log NoneAvailable as an
error. -/
theorem claim_selects_best_pending (db : DB) :
    ((Worker.claimTask db).2 = .error .noRows ↔ ∀ u ∈ db.tasks, u.status ≠ .pending) ∧
    ((Worker.claimTask db).2 = .error .noRows → (Worker.claimTask db).1 = db) ∧
    ((∃ u ∈ db.tasks, u.status = .pending) → ∃ v, (Worker.claimTask db).2 = .ok v) ∧
    (∀ v, (Worker.claimTask db).2 = .ok v →
        ∃ r ∈ db.tasks, r.status = .pending ∧
          v = { r with status := .processing, updatedAt := db.now } ∧
          (∀ w ∈ db.tasks, w.status = .pending →
              w.priority ≤ r.priority ∧
              (w.priority = r.priority → r.createdAt ≤ w.createdAt)) ∧
          (Worker.claimTask db).1.tasks = db.tasks.map (Worker.claimUpd db.now r.id)) ∧
    ((∀ u ∈ db.tasks, u.status ≠ .pending) → Worker.workerTick db false = (db, false)) := by
  refine ⟨⟨?_, ?_⟩, ?_, ?_, ?_, ?_⟩
  · intro h
    cases hsel : Worker.selectPending db.tasks with
    | none => exact (selectPending_none db.tasks).mp hsel
    | some r => simp [Worker.claimTask, hsel] at h
  · intro h
    have hsel : Worker.selectPending db.tasks = none :=
      (selectPending_none db.tasks).mpr h
    simp [Worker.claimTask, hsel]
  · intro h
    cases hsel : Worker.selectPending db.tasks with
    | none => simp [Worker.claimTask, hsel]
    | some r => simp [Worker.claimTask, hsel] at h
  · intro h
    cases hsel : Worker.selectPending db.tasks with
    | none =>
        obtain ⟨u, hu, hup⟩ := h
        exact absurd hup ((selectPending_none db.tasks).mp hsel u hu)
    | some r =>
        exact ⟨{ r with status := .processing, updatedAt := db.now },
               by simp [Worker.claimTask, hsel]⟩
  · intro v hv
    cases hsel : Worker.selectPending db.tasks with
    | none => simp [Worker.claimTask, hsel] at hv
    | some r =>
        obtain ⟨hmem, hpend, hbest⟩ := selectPending_spec db.tasks r hsel
        simp only [Worker.claimTask, hsel] at hv
        cases hv
        exact ⟨r, hmem, hpend, rfl,
               fun w hw hwp => claimKey_le_spec r w (hbest w hw hwp),
               by simp [Worker.claimTask, hsel]⟩
  · intro h
    have hsel : Worker.selectPending db.tasks = none :=
      (selectPending_none db.tasks).mpr h
    simp [Worker.workerTick, Worker.processNext, Worker.claimTask, hsel]

/-- Witness for C3 on the seeded store with priorities [1,5,10,3,7]: a
pending task exists, so claiming succeeds, and the claimed task is the
priority-10 one (spec §8 scenario). -/
theorem claim_selects_best_pending_witness :
    (∃ u ∈ seededDB.tasks, u.status = .pending) ∧
    (∃ v, (Worker.claimTask seededDB).2 = .ok v) ∧
    (Worker.claimTask seededDB).2 = .ok
      { seedTask 3 10 with status := .processing, updatedAt := 100 } :=
  ⟨by decide, (claim_selects_best_pending seededDB).2.2.1 (by decide), by decide⟩

/-! ## C5 — each pending task is claimed exactly once -/

theorem pending_erase (now : Int) (l : List Task) (r : Task)
    (hids : (l.map Task.id).Nodup) (hr : r ∈ l) (hp : r.status = .pending) :
    ((l.map (Worker.claimUpd now r.id)).filter (fun u => u.status == .pending)).map Task.id
      = ((l.filter (fun u => u.status == .pending)).map Task.id).erase r.id := by
  induction l with
  | nil => cases hr
  | cons a l ih =>
      simp only [List.map_cons, List.nodup_cons] at hids
      by_cases har : a.id = r.id
      · have har2 : a = r := by
          rcases List.mem_cons.mp hr with h | h
          · exact h.symm
          · exact absurd (har ▸ List.mem_map_of_mem Task.id h) hids.1
        subst har2
        have hl : l.map (Worker.claimUpd now a.id) = l := by
          conv_rhs => rw [← List.map_id l]
          apply List.map_congr_left
          intro x hx
          simp only [id]
          unfold Worker.claimUpd
          rw [if_neg]
          simp only [beq_iff_eq]
          intro hxa
          exact hids.1 (hxa ▸ List.mem_map_of_mem Task.id hx)
        have hupd : Worker.claimUpd now a.id a
            = { a with status := .processing, updatedAt := now } := by
          unfold Worker.claimUpd
          rw [if_pos (by simp)]
        simp [List.filter_cons, hupd, hl, hp, List.erase_cons]
      · have hrl : r ∈ l := by
          rcases List.mem_cons.mp hr with h | h
          · exact absurd (h ▸ rfl) har
          · exact h
        have ha : Worker.claimUpd now r.id a = a := by
          unfold Worker.claimUpd
          rw [if_neg (by simp [har])]
        have ihh := ih hids.2 hrl
        by_cases hap : a.status = .pending
        · simp [List.filter_cons, ha, hap, List.erase_cons, har, ihh]
        · have hapb : (a.status == Status.pending) = false := by
            simp [hap]
          simp [List.filter_cons, ha, hapb, ihh]

theorem pendingIds_nodup (db : DB) (hids : (db.tasks.map Task.id).Nodup) :
    (pendingIds db).Nodup :=
  List.Nodup.sublist (List.Sublist.map Task.id (List.filter_sublist db.tasks)) hids

theorem claim_step (db : DB) (r : Task)
    (hids : (db.tasks.map Task.id).Nodup)
    (hsel : Worker.selectPending db.tasks = some r) :
    pendingIds { db with tasks := db.tasks.map (Worker.claimUpd db.now r.id) }
      = (pendingIds db).erase r.id ∧
    ({ db with tasks := db.tasks.map (Worker.claimUpd db.now r.id) } : DB).tasks.map Task.id
      = db.tasks.map Task.id ∧
    r.id ∈ pendingIds db := by
  obtain ⟨hmem, hpend, -⟩ := selectPending_spec db.tasks r hsel
  refine ⟨?_, ?_, ?_⟩
  · unfold pendingIds
    exact pending_erase db.now db.tasks r hids hmem hpend
  · rw [List.map_map]
    apply List.map_congr_left
    intro w hw
    simp only [Function.comp_apply]
    unfold Worker.claimUpd
    split <;> rfl
  · unfold pendingIds
    exact List.mem_map_of_mem Task.id (List.mem_filter.mpr ⟨hmem, by simp [hpend]⟩)

/-- C5: with duplicate-free row ids, any number of successive Claim calls
never hands out an id twice, hands out only ids of rows pending at the
start, and — once at least as many claims as pending rows have run — hands
out every pending id: each pending task is claimed exactly once. -/
theorem claim_each_pending_exactly_once (db : DB)
    (hids : (db.tasks.map Task.id).Nodup) (n : Nat) :
    (claimIds n db).Nodup ∧
    (∀ i ∈ claimIds n db, i ∈ pendingIds db) ∧
    ((pendingIds db).length ≤ n → ∀ i ∈ pendingIds db, i ∈ claimIds n db) := by
  induction n generalizing db with
  | zero =>
      refine ⟨List.nodup_nil, by simp [claimIds], ?_⟩
      intro hlen i hi
      rw [Nat.le_zero, List.length_eq_zero] at hlen
      rw [hlen] at hi
      cases hi
  | succ n ih =>
      cases hsel : Worker.selectPending db.tasks with
      | none =>
          have hno := (selectPending_none db.tasks).mp hsel
          have hpe : pendingIds db = [] := by
            unfold pendingIds
            rw [List.filter_eq_nil_iff.mpr (by simpa using hno)]
            rfl
          have hcl : claimIds (n + 1) db = [] := by
            simp [claimIds, Worker.claimTask, hsel]
          refine ⟨by rw [hcl]; exact List.nodup_nil, by rw [hcl]; simp, ?_⟩
          intro _ i hi
          rw [hpe] at hi
          cases hi
      | some r =>
          obtain ⟨hperm, hidpres, hrmem⟩ := claim_step db r hids hsel
          have hunf : claimIds (n + 1) db
              = r.id :: claimIds n { db with tasks := db.tasks.map (Worker.claimUpd db.now r.id) } := by
            simp [claimIds, Worker.claimTask, hsel]
          have hids2 :
              ((({ db with tasks := db.tasks.map (Worker.claimUpd db.now r.id) } : DB)).tasks.map Task.id).Nodup := by
            rw [hidpres]
            exact hids
          obtain ⟨ihN, ihS, ihE⟩ :=
            ih { db with tasks := db.tasks.map (Worker.claimUpd db.now r.id) } hids2
          have hnotin :
              r.id ∉ claimIds n { db with tasks := db.tasks.map (Worker.claimUpd db.now r.id) } := by
            intro hin
            have hmem2 := ihS r.id hin
            rw [hperm] at hmem2
            exact absurd ((pendingIds_nodup db hids).mem_erase_iff.mp hmem2).1 (by simp)
          refine ⟨?_, ?_, ?_⟩
          · rw [hunf]
            exact List.nodup_cons.mpr ⟨hnotin, ihN⟩
          · rw [hunf]
            intro i hi
            rcases List.mem_cons.mp hi with h | h
            · exact h ▸ hrmem
            · have hmem2 := ihS i h
              rw [hperm] at hmem2
              exact List.mem_of_mem_erase hmem2
          · intro hlen i hi
            rw [hunf]
            by_cases hir : i = r.id
            · exact hir ▸ List.mem_cons_self r.id _
            · apply List.mem_cons_of_mem
              apply ihE
              · rw [hperm, List.length_erase_of_mem hrmem]
                have hpos := List.length_pos_of_mem hrmem
                omega
              · rw [hperm]
                exact (pendingIds_nodup db hids).mem_erase_iff.mpr ⟨hir, hi⟩

/-- Witness for C5 on the seeded store: ids are duplicate-free, five claims
hand out no id twice, and the priority-10 task's id 3 is among them. -/
theorem claim_each_pending_exactly_once_witness :
    (seededDB.tasks.map Task.id).Nodup ∧
    (claimIds 5 seededDB).Nodup ∧
    3 ∈ claimIds 5 seededDB :=
  ⟨by decide,
   (claim_each_pending_exactly_once seededDB (by decide) 5).1,
   (claim_each_pending_exactly_once seededDB (by decide) 5).2.2 (by decide) 3 (by decide)⟩

/-! ## C8 — List: filter, order, bounded count -/

/-- C8: List returns only stored rows matching the optional status filter,
ordered newest-first (created_at DESC, id DESC); the result count never
exceeds 100; an out-of-range requested limit (≤ 0 or > 100) falls back to
the default 20, and an in-range limit bounds the count by itself. -/
theorem list_filtered_ordered_bounded (db : DB) (statusF : Option Status)
    (limit : Int) :
    (∀ u ∈ Service.list db statusF limit, u ∈ db.tasks) ∧
    (∀ s, statusF = some s → ∀ u ∈ Service.list db statusF limit, u.status = s) ∧
    List.Sorted Service.newestFirst (Service.list db statusF limit) ∧
    (Service.list db statusF limit).length ≤ 100 ∧
    (limit ≤ 0 → (Service.list db statusF limit).length ≤ 20) ∧
    (100 < limit → (Service.list db statusF limit).length ≤ 20) ∧
    (1 ≤ limit → limit ≤ 100 → (Service.list db statusF limit).length ≤ limit.toNat) := by
  have hmem : ∀ u ∈ Service.list db statusF limit,
      u ∈ db.tasks.filter (fun w =>
        match statusF with
        | none => true
        | some s => w.status == s) := by
    intro u hu
    have hsub := List.take_sublist (Service.effLimit limit).toNat
      ((db.tasks.filter (fun w =>
        match statusF with
        | none => true
        | some s => w.status == s)).insertionSort Service.newestFirst)
    have hu2 := hsub.mem hu
    exact (List.perm_insertionSort Service.newestFirst _).mem_iff.mp hu2
  have hlen : (Service.list db statusF limit).length ≤ (Service.effLimit limit).toNat := by
    simp [Service.list, Service.repoList, List.length_take]
  have heff : ((limit ≤ 0 ∨ 100 < limit) ∧ Service.effLimit limit = 20) ∨
      (Service.effLimit limit = limit ∧ 1 ≤ limit ∧ limit ≤ 100) := by
    unfold Service.effLimit
    split
    · rename_i hcond
      simp only [Bool.or_eq_true, decide_eq_true_eq] at hcond
      exact Or.inl ⟨hcond, rfl⟩
    · rename_i hcond
      simp only [Bool.or_eq_true, decide_eq_true_eq, not_or, not_le, not_lt] at hcond
      exact Or.inr ⟨rfl, by omega, by omega⟩
  refine ⟨?_, ?_, ?_, ?_, ?_, ?_, ?_⟩
  · intro u hu
    exact (List.mem_filter.mp (hmem u hu)).1
  · intro s hs u hu
    have hf := (List.mem_filter.mp (hmem u hu)).2
    rw [hs] at hf
    simpa using hf
  · exact List.Pairwise.sublist (List.take_sublist _ _)
      (List.sorted_insertionSort Service.newestFirst _)
  · rcases heff with ⟨-, he⟩ | ⟨he, h1, h2⟩ <;> omega
  · intro h
    rcases heff with ⟨-, he⟩ | ⟨he, h1, h2⟩ <;> omega
  · intro h
    rcases heff with ⟨-, he⟩ | ⟨he, h1, h2⟩ <;> omega
  · intro h1 h2
    rcases heff with ⟨hc, he⟩ | ⟨he, -, -⟩ <;> omega

/-- Witness for C8 on the mixed store: filtering by pending returns only rows
of db, a requested limit of 0 falls back to the 20 bound, and a limit of 200
also yields at most 20 rows. -/
theorem list_filtered_ordered_bounded_witness :
    (∀ u ∈ Service.list mixedDB (some .pending) 0, u.status = .pending) ∧
    (Service.list mixedDB (some .pending) 0).length ≤ 20 ∧
    (Service.list mixedDB none 200).length ≤ 20 :=
  ⟨(list_filtered_ordered_bounded mixedDB (some .pending) 0).2.1 .pending rfl,
   (list_filtered_ordered_bounded mixedDB (some .pending) 0).2.2.2.2.1 (by decide),
   (list_filtered_ordered_bounded mixedDB none 200).2.2.2.2.2.1 (by decide)⟩

end TaskManager
